import Mathlib

/-
Verification of the profile-image storage gateway of the user_management
repository (src/app/utils/minio.py, src/app/utils/minio_client.py,
src/app/routers/user_routes.py).

The live gateway is app/utils/minio.py (the router imports it); the file
app/utils/minio_client.py still carries unresolved merge-conflict markers and
is therefore not importable, but both of its halves are embedded below as well
since the design notes treat them as divergent variants of the same gateway.

Strings are modelled by Lean String (lists of characters). Python str.lower is
modelled character-wise by Char.toLower, which lowercases the basic latin
letters; on the extension alphabet that the gateway compares against
(jpg, jpeg, png, gif) this coincides with Python, since no non-latin character
lowercases to any of those letters.

The backing object store (a MinIO server) is external to the repository; it is
modelled as a bucket set plus a keyed object map whose put replaces an existing
object under the same key, which is the overwrite semantics the design fixes
for it. Backing calls made by the gateway are recorded in a trace.
-/

namespace UserManagement

/-- Bytes of an uploaded payload, opaque to the gateway. -/
abbrev Bytes := List Nat

/-- Splits a character list at every occurrence of the separator, like Python
str.split: the result is never empty, and empty segments are kept. -/
def splitOnChar (sep : Char) : List Char → List (List Char)
  | [] => [[]]
  | c :: cs =>
    if c = sep then [] :: splitOnChar sep cs
    else
      match splitOnChar sep cs with
      | [] => [[c]]
      | s :: ss => (c :: s) :: ss

/-- Joins segments with a separator character, like sep.join in Python. -/
def joinWith (sep : Char) : List (List Char) → List Char
  | [] => []
  | [s] => s
  | s :: rest => s ++ sep :: joinWith sep rest

/-- Python filename.rsplit with a dot separator and count one, last element:
the part after the last dot, or the whole filename when it contains no dot. -/
def rawExt (filename : String) : String :=
  String.mk ((splitOnChar '.' filename.data).getLastD [])

/-- Python s.lower(), modelled character-wise on the basic latin letters. -/
def pyLower (s : String) : String :=
  String.mk (s.data.map Char.toLower)

/-- The case-folded extension the gateway validates in minio.py line 31: the
last dot-separated segment of the filename, lowercased. -/
def extOf (filename : String) : String :=
  pyLower (rawExt filename)

/-- The accepted extensions of minio.py line 32. -/
def allowedExtensions : List String := ["jpg", "jpeg", "png", "gif"]

/-- A dot segment of an URL path: a single or a double dot. -/
def isDotSeg (s : List Char) : Bool := s == ['.'] || s == ['.', '.']

/-- CPython urllib.parse: the slice assignment
of filter None over the segments other than the first and last, dropping empty interior
path segments. midKeep handles the part after the first element. -/
def midKeep : List (List Char) → List (List Char)
  | [] => []
  | [x] => [x]
  | x :: xs => if x = [] then midKeep xs else x :: midKeep xs

/-- Drops empty path segments that are neither first nor last. -/
def midFilter : List (List Char) → List (List Char)
  | [] => []
  | [a] => [a]
  | a :: rest => a :: midKeep rest

/-- CPython urllib.parse loop resolving dot segments: a double dot pops the
last resolved segment when there is one, a single dot is skipped, anything
else is appended. The accumulator holds the resolved segments in reverse. -/
def resolveDots (acc : List (List Char)) : List (List Char) → List (List Char)
  | [] => acc.reverse
  | s :: rest =>
    if s = ['.', '.'] then
      match acc with
      | [] => resolveDots [] rest
      | _ :: t => resolveDots t rest
    else if s = ['.'] then resolveDots acc rest
    else resolveDots (s :: acc) rest

/-- Splits an absolute URL of shape scheme://netloc[path] into the part up to
and including the network location, and the path that follows; models the
urlsplit step of urljoin for such bases. -/
def splitBaseAux : List Char → List Char × List Char
  | [] => ([], [])
  | c :: rest =>
    if c = ':' ∧ rest.take 2 = ['/', '/'] then
      let afterAuthority := rest.drop 2
      (c :: rest.take 2 ++ afterAuthority.takeWhile (fun d => !(d == '/')),
       afterAuthority.dropWhile (fun d => !(d == '/')))
    else
      let p := splitBaseAux rest
      (c :: p.1, p.2)

/-- CPython urljoin: base_parts = bpath.split('/') followed by
del base_parts[-1] unless the base path already ends in a slash. -/
def baseSegments (bpath : List Char) : List (List Char) :=
  if (splitOnChar '/' bpath).getLastD [] = ([] : List Char) then splitOnChar '/' bpath
  else (splitOnChar '/' bpath).dropLast

/-- CPython urljoin: the merged segment list — the url path alone when it is
absolute, otherwise the remaining base segments prepended and the empty
interior segments dropped. -/
def mergeSegments (bpath upath : List Char) : List (List Char) :=
  if upath.head? = some '/' then splitOnChar '/' upath
  else midFilter (baseSegments bpath ++ splitOnChar '/' upath)

/-- CPython urljoin: dot segments resolved, with a trailing empty segment
appended when the last merged segment was itself a dot segment. -/
def resolvedSegments (segs : List (List Char)) : List (List Char) :=
  match segs.getLast? with
  | some s =>
    if isDotSeg s then resolveDots [] segs ++ [[]] else resolveDots [] segs
  | none => resolveDots [] segs

/-- CPython urljoin: the joined path, falling back to a bare slash when the
resolved path is empty. -/
def resolvePath (segs : List (List Char)) : List Char :=
  if joinWith '/' (resolvedSegments segs) = [] then ['/']
  else joinWith '/' (resolvedSegments segs)

/-- Models urllib.parse.urljoin for the call shapes the gateway makes: the base
is an absolute http URL (scheme://netloc[path]) and url is a relative path
reference with no scheme, no authority, no query and no fragment. The pieces
above mirror the CPython algorithm stage by stage. -/
def urljoin (base url : String) : String :=
  String.mk ((splitBaseAux base.data).1
    ++ resolvePath (mergeSegments (splitBaseAux base.data).2 url.data))

/-- A character that keeps a relative reference inside the plain-path fragment
of the URL grammar: no scheme, query, fragment or parameter delimiter. -/
def plainChar (c : Char) : Bool :=
  !(c == ':' || c == '?' || c == '#' || c == ';')

/-- A plain relative path: only plain characters, and every slash-separated
segment is nonempty and not a dot segment. On such references the urljoin
model above agrees with urllib.parse.urljoin. -/
def plainPath (p : String) : Bool :=
  p.data.all plainChar &&
    (splitOnChar '/' p.data).all (fun s => !(s == []) && !(isDotSeg s))

/-- The calls the gateway can make against the backing object store. -/
inductive BackingCall where
  | bucketExists (bucket : String)
  | makeBucket (bucket : String)
  | putObject (bucket objectName : String) (data : Bytes)
  | presignGet (bucket objectName : String) (expiry : Int)
deriving DecidableEq

/-- State of the backing object store: existing buckets and stored objects
keyed by bucket and object name. -/
structure ObjectStore where
  buckets : List String
  objects : List ((String × String) × Bytes)
deriving DecidableEq

def ObjectStore.empty : ObjectStore := ⟨[], []⟩

/-- MinIO put_object semantics as the design fixes them: an object stored under
an already existing (bucket, name) key replaces the old one, with no
versioning, no duplicate and no conflict error. -/
def ObjectStore.put (st : ObjectStore) (bucket name : String) (data : Bytes) : ObjectStore :=
  { st with
    objects := ((bucket, name), data) :: st.objects.filter (fun e => e.1 != (bucket, name)) }

/-- The stored content under a key, if any. -/
def ObjectStore.lookup (st : ObjectStore) (bucket name : String) : Option Bytes :=
  (st.objects.find? (fun e => e.1 == (bucket, name))).map (fun e => e.2)

/-- How many stored objects carry exactly this key. -/
def ObjectStore.countName (st : ObjectStore) (bucket name : String) : Nat :=
  (st.objects.filter (fun e => e.1 == (bucket, name))).length

/-- How many stored objects in the bucket belong to the user under the
caller naming convention, i.e. have an object name starting with the user id
followed by a dot. -/
def ObjectStore.countUser (st : ObjectStore) (bucket userId : String) : Nat :=
  (st.objects.filter
    (fun e => e.1.1 == bucket && (userId ++ ".").data.isPrefixOf e.1.2.data)).length

/-- The error taxonomy of the gateway: a rejected extension (Python
ValueError, the repo name for ValidationError) carrying a message, and a
backing-store fault. -/
inductive GatewayError where
  | validationError (msg : String)
  | storageUnavailable
deriving DecidableEq

/-- The gateway configuration read from settings: MINIO_ENDPOINT and
MINIO_BUCKET_NAME. -/
structure Config where
  endpoint : String
  bucket : String
deriving DecidableEq

/-- minio.py line 45: urljoin of the endpoint with a trailing slash appended
and the bucket slash filename reference. -/
def storeImageUrl (endpoint bucket filename : String) : String :=
  urljoin (endpoint ++ "/") (bucket ++ "/" ++ filename)

/-- ProfileImageService._ensure_bucket_exists: check existence, create the
bucket only when absent. Returns the new store and the backing calls made. -/
def ensure_bucket_exists (bucket : String) (st : ObjectStore) :
    ObjectStore × List BackingCall :=
  if st.buckets.contains bucket then (st, [BackingCall.bucketExists bucket])
  else
    ({ st with buckets := bucket :: st.buckets },
     [BackingCall.bucketExists bucket, BackingCall.makeBucket bucket])

/-- ProfileImageService.__init__ of minio.py: the eager provisioning policy
runs the bucket check at construction, before any store_image call. -/
def serviceInit (cfg : Config) (st : ObjectStore) : ObjectStore × List BackingCall :=
  ensure_bucket_exists cfg.bucket st

/-- ProfileImageService.store_image of minio.py lines 31 to 45: validate the
case-folded extension, raise ValueError on mismatch before any backing call,
otherwise put the object under the unchanged filename and only then build the
canonical URL. The putOk flag injects the outcome of the backing put_object
call; when it fails the Python exception propagates and no URL is built. -/
def store_image (cfg : Config) (st : ObjectStore) (putOk : Bool)
    (content : Bytes) (filename : String) :
    Except GatewayError (ObjectStore × String) × List BackingCall :=
  if allowedExtensions.contains (extOf filename) then
    if putOk then
      (Except.ok (st.put cfg.bucket filename content,
                  storeImageUrl cfg.endpoint cfg.bucket filename),
       [BackingCall.putObject cfg.bucket filename content])
    else
      (Except.error GatewayError.storageUnavailable,
       [BackingCall.putObject cfg.bucket filename content])
  else
    (Except.error (GatewayError.validationError ("Invalid file extension: ." ++ extOf filename)),
     [])

/-- ProfileImageService.store_image of the lazy minio_client.py variant, lines
85 to 108: identical to the eager variant except that it runs
_ensure_bucket_exists itself, before even validating the extension. -/
def store_image_lazy (cfg : Config) (st : ObjectStore) (putOk : Bool)
    (content : Bytes) (filename : String) :
    Except GatewayError (ObjectStore × String) × List BackingCall :=
  ((store_image cfg (ensure_bucket_exists cfg.bucket st).1 putOk content filename).1,
   (ensure_bucket_exists cfg.bucket st).2
     ++ (store_image cfg (ensure_bucket_exists cfg.bucket st).1 putOk content filename).2)

/-- upload_profile_picture of the other minio_client.py half, lines 23 to 48:
same validation set but a bare error message not carrying the extension, and
the URL built by f-string concatenation instead of urljoin. The module body
provisions the hard-coded bucket demo, not the configured one. -/
def upload_profile_picture (cfg : Config) (st : ObjectStore) (putOk : Bool)
    (content : Bytes) (filename : String) :
    Except GatewayError (ObjectStore × String) × List BackingCall :=
  if allowedExtensions.contains (extOf filename) then
    if putOk then
      (Except.ok (st.put cfg.bucket filename content,
                  cfg.endpoint ++ "/" ++ cfg.bucket ++ "/" ++ filename),
       [BackingCall.putObject cfg.bucket filename content])
    else
      (Except.error GatewayError.storageUnavailable,
       [BackingCall.putObject cfg.bucket filename content])
  else
    (Except.error (GatewayError.validationError ("Unsupported file type")), [])

/-- Python default of generate_presigned_url, expiry: int = 3600. -/
def presignDefaultExpiry : Int := 3600

/-- ProfileImageService.generate_presigned_url of minio.py lines 47 to 56: a
direct pass-through to the backing get_presigned_url with no validation and no
existence check. The signer argument stands for the SDK signing computation,
which is local and depends only on bucket, object name and expiry. -/
def generate_presigned_url (cfg : Config) (signer : String → String → Int → String)
    (st : ObjectStore) (filename : String) (expiry : Int) :
    Except GatewayError String × List BackingCall :=
  (Except.ok (signer cfg.bucket filename expiry),
   [BackingCall.presignGet cfg.bucket filename expiry])

/-- A call of generate_presigned_url that omits the expiry argument and so
receives the Python default. -/
def generate_presigned_url_omitted (cfg : Config)
    (signer : String → String → Int → String) (st : ObjectStore) (filename : String) :
    Except GatewayError String × List BackingCall :=
  generate_presigned_url cfg signer st filename presignDefaultExpiry

/-- The store after a store_image result: unchanged when the call raised. -/
def resultStore (st : ObjectStore) (r : Except GatewayError (ObjectStore × String)) :
    ObjectStore :=
  match r with
  | Except.ok p => p.1
  | Except.error _ => st

/-- The canonical URL of a store_image result, if the call succeeded. -/
def urlOf (r : Except GatewayError (ObjectStore × String)) : Option String :=
  match r with
  | Except.ok p => some p.2
  | Except.error _ => none

/-- The message of a raised ValidationError, if the result is one. -/
def validationErrorOf (r : Except GatewayError (ObjectStore × String)) : Option String :=
  match r with
  | Except.error (GatewayError.validationError m) => some m
  | _ => none

/-- One request served by the constructed gateway. -/
inductive GatewayOp where
  | storeOp (putOk : Bool) (content : Bytes) (filename : String)
  | presignOp (filename : String) (expiry : Int)

/-- The store transition and the backing calls of one gateway request. -/
def opTrace (cfg : Config) (signer : String → String → Int → String)
    (st : ObjectStore) : GatewayOp → ObjectStore × List BackingCall
  | GatewayOp.storeOp putOk content filename =>
    (resultStore st (store_image cfg st putOk content filename).1,
     (store_image cfg st putOk content filename).2)
  | GatewayOp.presignOp filename expiry =>
    (st, (generate_presigned_url cfg signer st filename expiry).2)

/-- Runs a sequence of gateway requests, concatenating backing-call traces. -/
def runOps (cfg : Config) (signer : String → String → Int → String) :
    ObjectStore → List GatewayOp → ObjectStore × List BackingCall
  | st, [] => (st, [])
  | st, op :: rest =>
    ((runOps cfg signer (opTrace cfg signer st op).1 rest).1,
     (opTrace cfg signer st op).2 ++ (runOps cfg signer (opTrace cfg signer st op).1 rest).2)

/-- A full run of the eager minio.py service: construction (which provisions
the bucket) followed by a sequence of requests. -/
def runService (cfg : Config) (signer : String → String → Int → String)
    (st0 : ObjectStore) (ops : List GatewayOp) : ObjectStore × List BackingCall :=
  ((runOps cfg signer (serviceInit cfg st0).1 ops).1,
   (serviceInit cfg st0).2 ++ (runOps cfg signer (serviceInit cfg st0).1 ops).2)

/-- upload_profile_picture_endpoint of user_routes.py lines 184 to 190: the
object name handed to the gateway is the user id, a dot, and the raw
(not case-folded) last dot-separated segment of the uploaded filename. -/
def profileObjectName (userId filename : String) : String :=
  userId ++ "." ++ rawExt filename

/-- The store_image call the upload endpoint makes for one upload. -/
def uploadEndpoint (cfg : Config) (st : ObjectStore) (userId filename : String)
    (content : Bytes) : Except GatewayError (ObjectStore × String) × List BackingCall :=
  store_image cfg st true content (profileObjectName userId filename)

/-- A sequence of profile-picture uploads by one user, each a pair of uploaded
filename and content, threaded through the store. -/
def runUploads (cfg : Config) (st : ObjectStore) (userId : String) :
    List (String × Bytes) → ObjectStore
  | [] => st
  | up :: rest =>
    runUploads cfg (resultStore st (uploadEndpoint cfg st userId up.1 up.2).1) userId rest

/-- An arbitrary signing function for concrete runs. -/
def constSigner : String → String → Int → String := fun _ _ _ => ""

/-- Invariant for the one-image-per-user argument: every object of the user in
the bucket sits under exactly this key, and the key is stored at most once. -/
def userConfined (st : ObjectStore) (bucket u name : String) : Prop :=
  (∀ e ∈ st.objects,
      e.1.1 = bucket → (u ++ ".").data.isPrefixOf e.1.2.data = true → e.1 = (bucket, name))
  ∧ st.countName bucket name ≤ 1

/-- The configuration of the concrete scenarios in the design document. -/
def cfg0 : Config := ⟨"http://minio:9000", "profile-pictures"⟩

/-! Helper lemmas about the string and path machinery. -/

theorem stringExt (s t : String) (h : s.data = t.data) : s = t :=
  String.ext h

theorem splitOnChar_ne_nil (sep : Char) : ∀ l : List Char, splitOnChar sep l ≠ []
  | [] => by simp [splitOnChar]
  | c :: cs => by
    simp only [splitOnChar]
    split
    · simp
    · split <;> simp

theorem joinWith_cons2 (sep : Char) (s x : List Char) (xs : List (List Char)) :
    joinWith sep (s :: x :: xs) = s ++ sep :: joinWith sep (x :: xs) := rfl

theorem joinWith_splitOnChar (sep : Char) (l : List Char) :
    joinWith sep (splitOnChar sep l) = l := by
  induction l with
  | nil => rfl
  | cons c cs ih =>
    rcases hs : splitOnChar sep cs with _ | ⟨s, ss⟩
    · exact absurd hs (splitOnChar_ne_nil sep cs)
    · rw [hs] at ih
      by_cases h : c = sep
      · subst h
        have e : splitOnChar c (c :: cs) = [] :: s :: ss := by
          simp [splitOnChar, hs]
        rw [e, joinWith_cons2, List.nil_append, ih]
      · have e : splitOnChar sep (c :: cs) = (c :: s) :: ss := by
          simp [splitOnChar, h, hs]
        rw [e]
        cases ss with
        | nil =>
          simp only [joinWith] at ih ⊢
          rw [ih]
        | cons t ts =>
          rw [joinWith_cons2] at ih
          rw [joinWith_cons2, ← ih]
          simp

theorem midKeep_eq_self : ∀ xs : List (List Char), (∀ s ∈ xs, s ≠ []) → midKeep xs = xs
  | [], _ => rfl
  | [x], _ => rfl
  | x :: y :: ys, h => by
    have hx : x ≠ [] := h x (by simp)
    have ih := midKeep_eq_self (y :: ys) (fun s hs => h s (by simp at hs ⊢; tauto))
    simp only [midKeep, if_neg hx]
    rw [ih]

theorem midKeep_nil_cons (x : List Char) (xs : List (List Char)) :
    midKeep ([] :: x :: xs) = midKeep (x :: xs) := by
  simp [midKeep]

theorem resolveDots_no_dots :
    ∀ (l acc : List (List Char)), (∀ s ∈ l, isDotSeg s = false) →
      resolveDots acc l = acc.reverse ++ l
  | [], acc, _ => by simp [resolveDots]
  | s :: rest, acc, h => by
    have hs : isDotSeg s = false := h s (by simp)
    have h1 : ¬s = ['.', '.'] := by
      intro hh; subst hh; simp [isDotSeg] at hs
    have h2 : ¬s = ['.'] := by
      intro hh; subst hh; simp [isDotSeg] at hs
    have ih := resolveDots_no_dots rest (s :: acc) (fun t ht => h t (by simp at ht ⊢; tauto))
    simp only [resolveDots, if_neg h1, if_neg h2]
    rw [ih]
    simp

theorem takeWhile_no_slash :
    ∀ (h : List Char), (∀ c ∈ h, (c == '/') = false) →
      ∀ m, (h ++ '/' :: m).takeWhile (fun d => !(d == '/')) = h
  | [], _, m => by simp [List.takeWhile_cons]
  | c :: cs, hc, m => by
    have h1 : (c == '/') = false := hc c (by simp)
    have ih := takeWhile_no_slash cs (fun d hd => hc d (by simp at hd ⊢; tauto)) m
    simp [List.takeWhile_cons, h1, ih]

theorem dropWhile_no_slash :
    ∀ (h : List Char), (∀ c ∈ h, (c == '/') = false) →
      ∀ m, (h ++ '/' :: m).dropWhile (fun d => !(d == '/')) = '/' :: m
  | [], _, m => by simp [List.dropWhile_cons]
  | c :: cs, hc, m => by
    have h1 : (c == '/') = false := hc c (by simp)
    have ih := dropWhile_no_slash cs (fun d hd => hc d (by simp at hd ⊢; tauto)) m
    simp [List.dropWhile_cons, h1, ih]

theorem splitBaseAux_cons_ne (c : Char) (rest : List Char)
    (h : ¬(c = ':' ∧ rest.take 2 = ['/', '/'])) :
    splitBaseAux (c :: rest) = (c :: (splitBaseAux rest).1, (splitBaseAux rest).2) := by
  simp only [splitBaseAux, if_neg h]

theorem splitBaseAux_colon (r : List Char) :
    splitBaseAux (':' :: '/' :: '/' :: r)
      = (':' :: '/' :: '/' :: r.takeWhile (fun d => !(d == '/')),
         r.dropWhile (fun d => !(d == '/'))) := by
  have hcond : (':' : Char) = ':' ∧ (('/' :: '/' :: r).take 2 = ['/', '/']) := ⟨rfl, rfl⟩
  simp only [splitBaseAux, if_pos hcond]
  rfl

theorem splitBaseAux_http (hostc more : List Char)
    (hh : ∀ c ∈ hostc, (c == '/') = false) :
    splitBaseAux (('h' :: 't' :: 't' :: 'p' :: ':' :: '/' :: '/' :: hostc) ++ '/' :: more)
      = ('h' :: 't' :: 't' :: 'p' :: ':' :: '/' :: '/' :: hostc, '/' :: more) := by
  have e0 : ('h' :: 't' :: 't' :: 'p' :: ':' :: '/' :: '/' :: hostc) ++ '/' :: more
      = 'h' :: 't' :: 't' :: 'p' :: ':' :: '/' :: '/' :: (hostc ++ '/' :: more) := by
    simp
  rw [e0]
  have hne : ∀ c : Char, c ≠ ':' → ∀ r : List Char, ¬(c = ':' ∧ r.take 2 = ['/', '/']) :=
    fun c hc r hcr => hc hcr.1
  rw [splitBaseAux_cons_ne 'h' _ (hne 'h' (by decide) _)]
  rw [splitBaseAux_cons_ne 't' _ (hne 't' (by decide) _)]
  rw [splitBaseAux_cons_ne 't' _ (hne 't' (by decide) _)]
  rw [splitBaseAux_cons_ne 'p' _ (hne 'p' (by decide) _)]
  rw [splitBaseAux_colon]
  rw [takeWhile_no_slash hostc hh more, dropWhile_no_slash hostc hh more]

theorem plainPath_segments (p : String) (hp : plainPath p = true) :
    ∀ s ∈ splitOnChar '/' p.data, s ≠ [] ∧ isDotSeg s = false := by
  intro s hs
  unfold plainPath at hp
  rw [Bool.and_eq_true] at hp
  have h2 := hp.2
  rw [List.all_eq_true] at h2
  have h3 := h2 s hs
  rw [Bool.and_eq_true] at h3
  constructor
  · intro he; subst he; simp at h3
  · rcases h3 with ⟨_, hd⟩
    revert hd
    cases isDotSeg s <;> simp

theorem plainPath_head (p : String) (hp : plainPath p = true) :
    ∃ c cs, p.data = c :: cs ∧ c ≠ '/' := by
  rcases hd : p.data with _ | ⟨c, cs⟩
  · exfalso
    have h := plainPath_segments p hp
    rw [hd] at h
    have h0 := h [] (by simp [splitOnChar])
    exact h0.1 rfl
  · refine ⟨c, cs, rfl, ?_⟩
    intro hc
    subst hc
    have h := plainPath_segments p hp
    rw [hd] at h
    have h0 := h [] (by simp [splitOnChar])
    exact h0.1 rfl

theorem getLast?_mem_of_ne_nil :
    ∀ l : List (List Char), l ≠ [] → ∃ a, l.getLast? = some a ∧ a ∈ l
  | [], h => absurd rfl h
  | [a], _ => ⟨a, by simp, by simp⟩
  | a :: b :: t, _ => by
    obtain ⟨x, hx, hm⟩ := getLast?_mem_of_ne_nil (b :: t) (by simp)
    exact ⟨x, by simp [List.getLast?_cons_cons, hx], by simp [hm]⟩


theorem urljoin_http_base (host p : String) (extra : List Char)
    (hex : extra = [] ∨ extra = ['/'])
    (hh : ∀ c ∈ host.data, (c == '/') = false)
    (hp : plainPath p = true) :
    urljoin (String.mk (('h' :: 't' :: 't' :: 'p' :: ':' :: '/' :: '/' :: host.data) ++ '/' :: extra)) p
      = String.mk (('h' :: 't' :: 't' :: 'p' :: ':' :: '/' :: '/' :: host.data) ++ '/' :: p.data) := by
  have hall := plainPath_segments p hp
  obtain ⟨c0, cs0, hpd, hc0⟩ := plainPath_head p hp
  rcases hs : splitOnChar '/' p.data with _ | ⟨u, us⟩
  · exact absurd hs (splitOnChar_ne_nil '/' p.data)
  · have hne : ∀ s ∈ u :: us, s ≠ [] := fun s h => (hall s (hs ▸ h)).1
    have hnd : ∀ s ∈ u :: us, isDotSeg s = false := fun s h => (hall s (hs ▸ h)).2
    have hhead : ¬(p.data.head? = some '/') := by
      rw [hpd]
      simp only [List.head?_cons, Option.some.injEq]
      exact hc0
    have hK : midKeep ([] :: u :: us) = u :: us := by
      rw [midKeep_nil_cons, midKeep_eq_self (u :: us) hne]
    have hres : resolveDots [] ([] :: u :: us) = [] :: u :: us := by
      have e : resolveDots [] ([] :: u :: us) = resolveDots [[]] (u :: us) := rfl
      rw [e, resolveDots_no_dots (u :: us) [[]] hnd]
      rfl
    obtain ⟨t, ht, htm⟩ := getLast?_mem_of_ne_nil (u :: us) (by simp)
    have htd : isDotSeg t = false := hnd t htm
    have hjoin : joinWith '/' ([] :: u :: us) = '/' :: p.data := by
      rw [joinWith_cons2, List.nil_append, ← hs, joinWith_splitOnChar]
    have hrseg : resolvedSegments ([] :: u :: us) = [] :: u :: us := by
      unfold resolvedSegments
      rw [List.getLast?_cons_cons, ht]
      show (if isDotSeg t = true then resolveDots [] ([] :: u :: us) ++ [[]]
            else resolveDots [] ([] :: u :: us)) = [] :: u :: us
      have hnott : ¬(isDotSeg t = true) := by rw [htd]; simp
      rw [if_neg hnott, hres]
    have hrp : resolvePath ([] :: u :: us) = '/' :: p.data := by
      unfold resolvePath
      rw [hrseg, hjoin]
      rw [if_neg (show ¬('/' :: p.data = ([] : List Char)) by simp)]
    have hsp := splitBaseAux_http host.data extra hh
    have hs1 : (splitBaseAux (('h' :: 't' :: 't' :: 'p' :: ':' :: '/' :: '/' :: host.data) ++ '/' :: extra)).1
        = 'h' :: 't' :: 't' :: 'p' :: ':' :: '/' :: '/' :: host.data := by rw [hsp]
    have hs2 : (splitBaseAux (('h' :: 't' :: 't' :: 'p' :: ':' :: '/' :: '/' :: host.data) ++ '/' :: extra)).2
        = '/' :: extra := by rw [hsp]
    have hm : mergeSegments ('/' :: extra) p.data = [] :: u :: us := by
      rcases hex with he | he <;> subst he
      · unfold mergeSegments
        rw [if_neg hhead, hs]
        have hbs : baseSegments ('/' :: ([] : List Char)) = [[], []] := rfl
        rw [hbs]
        have e : ([[], []] : List (List Char)) ++ u :: us = [] :: [] :: u :: us := rfl
        rw [e]
        have e2 : midFilter ([] :: [] :: u :: us) = [] :: midKeep ([] :: u :: us) := rfl
        rw [e2, hK]
      · unfold mergeSegments
        rw [if_neg hhead, hs]
        have hbs : baseSegments ('/' :: '/' :: ([] : List Char)) = [[], [], []] := rfl
        rw [hbs]
        have e : ([[], [], []] : List (List Char)) ++ u :: us = [] :: [] :: [] :: u :: us := rfl
        rw [e]
        have e2 : midFilter ([] :: [] :: [] :: u :: us) = [] :: midKeep ([] :: [] :: u :: us) := rfl
        rw [e2, midKeep_nil_cons, hK]
    simp only [urljoin]
    rw [hs1, hs2, hm, hrp]

theorem urljoin_endpoint_slash (host p : String)
    (hh : ∀ c ∈ host.data, (c == '/') = false)
    (hp : plainPath p = true) :
    urljoin (("http://" ++ host) ++ "/") p = ("http://" ++ host) ++ "/" ++ p := by
  have hdat : ("http://" : String).data = ['h', 't', 't', 'p', ':', '/', '/'] := rfl
  have h1 : (("http://" ++ host) ++ "/")
      = String.mk (('h' :: 't' :: 't' :: 'p' :: ':' :: '/' :: '/' :: host.data) ++ '/' :: ([] : List Char)) := by
    apply stringExt
    simp [hdat, List.append_assoc]
  rw [h1, urljoin_http_base host p [] (Or.inl rfl) hh hp]
  apply stringExt
  simp [hdat, List.append_assoc]

theorem urljoin_endpoint_dslash (host p : String)
    (hh : ∀ c ∈ host.data, (c == '/') = false)
    (hp : plainPath p = true) :
    urljoin ((("http://" ++ host) ++ "/") ++ "/") p = ("http://" ++ host) ++ "/" ++ p := by
  have hdat : ("http://" : String).data = ['h', 't', 't', 'p', ':', '/', '/'] := rfl
  have h1 : ((("http://" ++ host) ++ "/") ++ "/")
      = String.mk (('h' :: 't' :: 't' :: 'p' :: ':' :: '/' :: '/' :: host.data) ++ '/' :: (['/'] : List Char)) := by
    apply stringExt
    simp [hdat, List.append_assoc]
  rw [h1, urljoin_http_base host p ['/'] (Or.inr rfl) hh hp]
  apply stringExt
  simp [hdat, List.append_assoc]


/-! Trace lemmas for the bucket-provisioning claims. -/

theorem store_image_put_mem (cfg : Config) (st : ObjectStore) (putOk : Bool)
    (content : Bytes) (filename : String) (b n : String) (d : Bytes)
    (h : BackingCall.putObject b n d ∈ (store_image cfg st putOk content filename).2) :
    b = cfg.bucket := by
  unfold store_image at h
  by_cases hc : allowedExtensions.contains (extOf filename) = true
  · rw [if_pos hc] at h
    cases putOk <;> simp at h <;> exact h.1
  · rw [if_neg hc] at h
    simp at h

theorem ensure_head (bucket : String) (st : ObjectStore) :
    ∃ rest, (ensure_bucket_exists bucket st).2 = BackingCall.bucketExists bucket :: rest := by
  unfold ensure_bucket_exists
  by_cases h : st.buckets.contains bucket = true
  · rw [if_pos h]
    exact ⟨[], rfl⟩
  · rw [if_neg h]
    exact ⟨[BackingCall.makeBucket bucket], rfl⟩

theorem ensure_no_put (bucket : String) (st : ObjectStore) (b n : String) (d : Bytes) :
    BackingCall.putObject b n d ∉ (ensure_bucket_exists bucket st).2 := by
  unfold ensure_bucket_exists
  by_cases h : st.buckets.contains bucket = true
  · rw [if_pos h]
    simp
  · rw [if_neg h]
    simp

theorem runOps_put_mem (cfg : Config) (signer : String → String → Int → String) :
    ∀ (ops : List GatewayOp) (st : ObjectStore) (b n : String) (d : Bytes),
      BackingCall.putObject b n d ∈ (runOps cfg signer st ops).2 → b = cfg.bucket
  | [], st, b, n, d, h => by simp [runOps] at h
  | op :: rest, st, b, n, d, h => by
    unfold runOps at h
    rw [List.mem_append] at h
    rcases h with h | h
    · cases op with
      | storeOp putOk content filename =>
        exact store_image_put_mem cfg st putOk content filename b n d h
      | presignOp filename expiry =>
        simp [opTrace, generate_presigned_url] at h
    · exact runOps_put_mem cfg signer rest (opTrace cfg signer st op).1 b n d h

theorem trace_put_preceded (tr0 tr1 : List BackingCall) (bk : String)
    (h0 : ∃ rest, tr0 = BackingCall.bucketExists bk :: rest)
    (hput : ∀ b n d, BackingCall.putObject b n d ∈ tr0 ++ tr1 → b = bk) :
    ∀ (i : Nat) (b n : String) (d : Bytes),
      (tr0 ++ tr1)[i]? = some (BackingCall.putObject b n d) →
      ∃ j : Nat, j < i ∧ (tr0 ++ tr1)[j]? = some (BackingCall.bucketExists b) := by
  intro i b n d h
  obtain ⟨rest, hr⟩ := h0
  have hb : b = bk := hput b n d (List.getElem?_mem h)
  subst hb
  refine ⟨0, ?_, ?_⟩
  · rcases Nat.eq_zero_or_pos i with hi | hi
    · subst hi
      rw [hr] at h
      simp at h
    · exact hi
  · rw [hr]
    simp


/-! Lemmas for the one-image-per-user invariant. -/

theorem filter_length_mono {α : Type} (l : List α) (p q : α → Bool)
    (h : ∀ a ∈ l, p a = true → q a = true) :
    (l.filter p).length ≤ (l.filter q).length := by
  induction l with
  | nil => simp
  | cons a t ih =>
    have iht := ih (fun x hx hp => h x (by simp [hx]) hp)
    by_cases hp : p a = true
    · rw [List.filter_cons_of_pos hp, List.filter_cons_of_pos (h a (by simp) hp)]
      simpa using iht
    · rw [List.filter_cons_of_neg (by simpa using hp)]
      by_cases hq : q a = true
      · rw [List.filter_cons_of_pos hq]
        exact Nat.le_succ_of_le iht
      · rw [List.filter_cons_of_neg (by simpa using hq)]
        exact iht

theorem isPrefixOf_append_self (l t : List Char) : l.isPrefixOf (l ++ t) = true := by
  rw [List.isPrefixOf_iff_prefix]
  exact List.prefix_append l t

theorem dotPrefix_of_name (u e : String) :
    ((u ++ ".").data).isPrefixOf ((u ++ "." ++ e).data) = true := by
  have hd : (u ++ "." ++ e).data = (u ++ ".").data ++ e.data := by
    simp
  rw [hd]
  exact isPrefixOf_append_self _ _

theorem filter_eq_key_of_filter_ne (objs : List ((String × String) × Bytes))
    (k : String × String) :
    (objs.filter (fun e => e.1 != k)).filter (fun e => e.1 == k) = [] := by
  induction objs with
  | nil => rfl
  | cons a t ih =>
    by_cases h : a.1 = k
    · rw [List.filter_cons_of_neg (by simp [h])]
      exact ih
    · rw [List.filter_cons_of_pos (by simp [h])]
      rw [List.filter_cons_of_neg (by simp [h])]
      exact ih

theorem countName_put (st : ObjectStore) (bucket name : String) (c : Bytes) :
    (st.put bucket name c).countName bucket name = 1 := by
  unfold ObjectStore.put ObjectStore.countName
  rw [List.filter_cons_of_pos (by simp)]
  rw [filter_eq_key_of_filter_ne]
  rfl

theorem lookup_put (st : ObjectStore) (bucket name : String) (c : Bytes) :
    (st.put bucket name c).lookup bucket name = some c := by
  have hobj : (st.put bucket name c).objects
      = ((bucket, name), c) :: st.objects.filter (fun e => e.1 != (bucket, name)) := rfl
  unfold ObjectStore.lookup
  rw [hobj, List.find?_cons_of_pos _ (by simp)]
  rfl

theorem userConfined_countUser (st : ObjectStore) (bucket u name : String)
    (h : userConfined st bucket u name) :
    st.countUser bucket u ≤ 1 := by
  unfold ObjectStore.countUser
  have hmono := filter_length_mono st.objects
      (fun e => e.1.1 == bucket && ((u ++ ".").data).isPrefixOf e.1.2.data)
      (fun e => e.1 == (bucket, name)) ?hmp
  · calc (st.objects.filter
          (fun e => e.1.1 == bucket && ((u ++ ".").data).isPrefixOf e.1.2.data)).length
        ≤ (st.objects.filter (fun e => e.1 == (bucket, name))).length := hmono
      _ ≤ 1 := h.2
  case hmp =>
    intro x hx hp
    rw [Bool.and_eq_true] at hp
    have hb : x.1.1 = bucket := by
      have := hp.1
      simp at this
      exact this
    have := h.1 x hx hb hp.2
    simp [this]

theorem userConfined_init (st : ObjectStore) (bucket u e : String)
    (h0 : st.countUser bucket u = 0) :
    userConfined st bucket u (u ++ "." ++ e) := by
  unfold ObjectStore.countUser at h0
  have hempty : st.objects.filter
      (fun x => x.1.1 == bucket && ((u ++ ".").data).isPrefixOf x.1.2.data) = [] :=
    List.length_eq_zero.mp h0
  constructor
  · intro x hx hb hp
    exfalso
    have hmem : x ∈ st.objects.filter
        (fun x => x.1.1 == bucket && ((u ++ ".").data).isPrefixOf x.1.2.data) :=
      List.mem_filter.mpr ⟨hx, by
        rw [Bool.and_eq_true]
        constructor
        · simp [hb]
        · simpa using hp⟩
    rw [hempty] at hmem
    simp at hmem
  · unfold ObjectStore.countName
    have hmono := filter_length_mono st.objects
        (fun x => x.1 == (bucket, u ++ "." ++ e))
        (fun x => x.1.1 == bucket && ((u ++ ".").data).isPrefixOf x.1.2.data) ?hmp
    · rw [hempty] at hmono
      simp only [List.length_nil] at hmono
      omega
    case hmp =>
      intro x hx hp
      simp only [beq_iff_eq] at hp
      rw [Bool.and_eq_true]
      constructor
      · simp [hp]
      · have h2 : x.1.2 = u ++ "." ++ e := by rw [hp]
        rw [h2]
        exact dotPrefix_of_name u e

theorem userConfined_put (st : ObjectStore) (bucket u name : String) (c : Bytes)
    (h : userConfined st bucket u name) :
    userConfined (st.put bucket name c) bucket u name := by
  constructor
  · intro x hx hb hp
    unfold ObjectStore.put at hx
    simp only [List.mem_cons] at hx
    rcases hx with hx | hx
    · rw [hx]
    · exact h.1 x (List.mem_filter.mp hx).1 hb hp
  · rw [countName_put]

theorem resultStore_store_image (cfg : Config) (st : ObjectStore) (putOk : Bool)
    (content : Bytes) (filename : String) :
    resultStore st (store_image cfg st putOk content filename).1 = st
    ∨ resultStore st (store_image cfg st putOk content filename).1
        = st.put cfg.bucket filename content := by
  unfold store_image
  by_cases hc : allowedExtensions.contains (extOf filename) = true
  · rw [if_pos hc]
    cases putOk
    · left
      rfl
    · right
      rfl
  · rw [if_neg hc]
    left
    rfl

theorem runUploads_confined (cfg : Config) (u e : String) :
    ∀ (uploads : List (String × Bytes)) (st : ObjectStore),
      (∀ up ∈ uploads, rawExt up.1 = e) →
      userConfined st cfg.bucket u (u ++ "." ++ e) →
      userConfined (runUploads cfg st u uploads) cfg.bucket u (u ++ "." ++ e)
  | [], st, _, h => h
  | up :: rest, st, hsame, h => by
    have he : rawExt up.1 = e := hsame up (by simp)
    have hn : profileObjectName u up.1 = u ++ "." ++ e := by
      unfold profileObjectName
      rw [he]
    have hstep : userConfined (resultStore st (uploadEndpoint cfg st u up.1 up.2).1)
        cfg.bucket u (u ++ "." ++ e) := by
      unfold uploadEndpoint
      rcases resultStore_store_image cfg st true up.2 (profileObjectName u up.1) with h1 | h1
      · rw [h1]
        exact h
      · rw [h1, hn]
        exact userConfined_put st cfg.bucket u (u ++ "." ++ e) up.2 h
    have hrec := runUploads_confined cfg u e rest
        (resultStore st (uploadEndpoint cfg st u up.1 up.2).1)
        (fun x hx => hsame x (by simp [hx])) hstep
    exact hrec


/-! The claims. -/

/-- C1 counterexample: the filename png has no extension (no dot at all), yet
store_image accepts it — the whole filename is taken as the extension segment —
performs the putObject write and raises no ValidationError, contradicting the
claim that every filename without an allowed extension after a dot is rejected
before any backing call. -/
theorem claim_C1_counterexample :
    (store_image cfg0 ObjectStore.empty true [] ("png")).2
      = [BackingCall.putObject ("profile-pictures") ("png") ([] : Bytes)]
    ∧ validationErrorOf (store_image cfg0 ObjectStore.empty true [] ("png")).1 = none := by
  decide

/-- C1 (amended): store_image proceeds to the write step — its backing trace is
exactly the one putObject call on the configured bucket with the unchanged
filename — iff the case-folded last dot-separated segment of the filename
(the whole filename when it contains no dot) is in jpg, jpeg, png, gif;
otherwise it raises ValidationError carrying that segment and the backing
trace is empty. -/
theorem claim_C1_validation_gate (cfg : Config) (st : ObjectStore) (putOk : Bool)
    (content : Bytes) (f : String) :
    (store_image cfg st putOk content f).2
      = (if allowedExtensions.contains (extOf f) then
           [BackingCall.putObject cfg.bucket f content] else [])
    ∧ validationErrorOf (store_image cfg st putOk content f).1
      = (if allowedExtensions.contains (extOf f) then none
         else some ("Invalid file extension: ." ++ extOf f)) := by
  by_cases hc : extOf f ∈ allowedExtensions
  · cases putOk <;> simp [store_image, hc, validationErrorOf]
  · cases putOk <;> simp [store_image, hc, validationErrorOf]

/-- C2: the canonical URL join of minio.py line 45 is idempotent in the
trailing slash of the endpoint, and produces exactly one separating slash:
for every plain bucket-slash-filename path, joining from endpoint http host
equals joining from the same endpoint with a trailing slash, and both equal
the endpoint, one slash, bucket, one slash, filename. -/
theorem claim_C2_join_idempotent (bucket filename : String)
    (hp : plainPath (bucket ++ "/" ++ filename) = true) :
    storeImageUrl ("http://host") bucket filename
      = storeImageUrl ("http://host/") bucket filename
    ∧ storeImageUrl ("http://host") bucket filename
      = ("http://host/") ++ (bucket ++ "/" ++ filename) := by
  have hh : ∀ c ∈ ("host" : String).data, (c == '/') = false := by decide
  have h1 := urljoin_endpoint_slash ("host") (bucket ++ "/" ++ filename) hh hp
  have h2 := urljoin_endpoint_dslash ("host") (bucket ++ "/" ++ filename) hh hp
  have e1 : storeImageUrl ("http://host") bucket filename
      = ("http://" ++ "host") ++ "/" ++ (bucket ++ "/" ++ filename) := by
    show urljoin (("http://host") ++ "/") (bucket ++ "/" ++ filename) = _
    have er : (("http://host") ++ "/" : String) = ("http://" ++ "host") ++ "/" := rfl
    rw [er]
    exact h1
  have e2 : storeImageUrl ("http://host/") bucket filename
      = ("http://" ++ "host") ++ "/" ++ (bucket ++ "/" ++ filename) := by
    show urljoin (("http://host/") ++ "/") (bucket ++ "/" ++ filename) = _
    have er : (("http://host/") ++ "/" : String) = (("http://" ++ "host") ++ "/") ++ "/" := rfl
    rw [er]
    exact h2
  constructor
  · rw [e1, e2]
  · rw [e1]
    rfl

/-- C2 witness at the bucket path of the design document. -/
theorem claim_C2_witness :
    storeImageUrl ("http://host") ("bucket") ("obj")
      = storeImageUrl ("http://host/") ("bucket") ("obj")
    ∧ storeImageUrl ("http://host") ("bucket") ("obj")
      = ("http://host/") ++ (("bucket") ++ "/" ++ ("obj")) :=
  claim_C2_join_idempotent ("bucket") ("obj") (by decide)

/-- C3: in every run of the eager minio.py service — construction followed by
any request sequence — every putObject in the backing trace is preceded by a
bucketExists check on the same bucket, and the same holds inside a single call
of the lazy minio_client variant, which provisions per call. -/
theorem claim_C3_ensure_before_write (cfg : Config)
    (signer : String → String → Int → String) (st0 : ObjectStore) (ops : List GatewayOp)
    (stl : ObjectStore) (putOk : Bool) (content : Bytes) (filename : String) :
    (∀ (i : Nat) (b n : String) (d : Bytes),
        (runService cfg signer st0 ops).2[i]? = some (BackingCall.putObject b n d) →
        ∃ j : Nat, j < i ∧ (runService cfg signer st0 ops).2[j]?
            = some (BackingCall.bucketExists b))
    ∧ (∀ (i : Nat) (b n : String) (d : Bytes),
        (store_image_lazy cfg stl putOk content filename).2[i]?
            = some (BackingCall.putObject b n d) →
        ∃ j : Nat, j < i ∧ (store_image_lazy cfg stl putOk content filename).2[j]?
            = some (BackingCall.bucketExists b)) := by
  constructor
  · have he : (runService cfg signer st0 ops).2
        = (ensure_bucket_exists cfg.bucket st0).2
          ++ (runOps cfg signer (ensure_bucket_exists cfg.bucket st0).1 ops).2 := rfl
    rw [he]
    apply trace_put_preceded
    · exact ensure_head cfg.bucket st0
    · intro b n d hmem
      rw [List.mem_append] at hmem
      rcases hmem with hm | hm
      · exact absurd hm (ensure_no_put cfg.bucket st0 b n d)
      · exact runOps_put_mem cfg signer ops _ b n d hm
  · have he : (store_image_lazy cfg stl putOk content filename).2
        = (ensure_bucket_exists cfg.bucket stl).2
          ++ (store_image cfg (ensure_bucket_exists cfg.bucket stl).1 putOk
                content filename).2 := rfl
    rw [he]
    apply trace_put_preceded
    · exact ensure_head cfg.bucket stl
    · intro b n d hmem
      rw [List.mem_append] at hmem
      rcases hmem with hm | hm
      · exact absurd hm (ensure_no_put cfg.bucket stl b n d)
      · exact store_image_put_mem cfg _ putOk content filename b n d hm

/-- C3 witness: in a concrete run whose write lands at trace index two, an
earlier bucketExists on the written bucket is found. -/
theorem claim_C3_witness :
    ∃ j : Nat, j < 2
      ∧ (runService cfg0 constSigner ObjectStore.empty
          [GatewayOp.storeOp true [] ("a.png")]).2[j]?
        = some (BackingCall.bucketExists ("profile-pictures")) :=
  (claim_C3_ensure_before_write cfg0 constSigner ObjectStore.empty
      [GatewayOp.storeOp true [] ("a.png")] ObjectStore.empty true [] ("a.png")).1
    2 ("profile-pictures") ("a.png") [] (by decide)

/-- C4 counterexample: one user uploads a png and then a jpg; both uploads
succeed and afterwards two current profile-image objects of that user sit in
the bucket, contradicting the claimed at-most-one invariant for arbitrary
successful upload sequences. -/
theorem claim_C4_counterexample :
    (runUploads cfg0 ObjectStore.empty ("u1")
        [(("a.png"), ([] : Bytes)), (("a.jpg"), ([] : Bytes))]).countUser
      ("profile-pictures") ("u1") = 2 := by
  decide

/-- C4 (amended): after any sequence of uploads by one user whose uploaded
filenames all carry the same raw extension segment, at most one object of that
user exists in the bucket, provided the user had none initially; and a write
under an already existing object name replaces the old object — the new
content is retrieved and exactly one object with that key remains. -/
theorem claim_C4_one_object_per_user (cfg : Config) (u e name : String)
    (uploads : List (String × Bytes)) (st0 st1 : ObjectStore) (c : Bytes)
    (hsame : ∀ up ∈ uploads, rawExt up.1 = e)
    (h0 : st0.countUser cfg.bucket u = 0) :
    (runUploads cfg st0 u uploads).countUser cfg.bucket u ≤ 1
    ∧ (st1.put cfg.bucket name c).lookup cfg.bucket name = some c
    ∧ (st1.put cfg.bucket name c).countName cfg.bucket name = 1 := by
  refine ⟨?_, lookup_put st1 cfg.bucket name c, countName_put st1 cfg.bucket name c⟩
  exact userConfined_countUser _ _ _ _
    (runUploads_confined cfg u e uploads st0 hsame (userConfined_init st0 cfg.bucket u e h0))

/-- C4 witness: two same-extension uploads by one user, and an overwrite of an
existing key, evaluated concretely. -/
theorem claim_C4_witness :
    (runUploads cfg0 ObjectStore.empty ("u1")
        [(("a.png"), ([] : Bytes)), (("b.png"), ([] : Bytes))]).countUser
      ("profile-pictures") ("u1") ≤ 1
    ∧ ((ObjectStore.empty.put ("profile-pictures") ("u1.png") ([1] : Bytes)).put
        ("profile-pictures") ("u1.png") ([2] : Bytes)).lookup ("profile-pictures") ("u1.png")
      = some ([2] : Bytes)
    ∧ ((ObjectStore.empty.put ("profile-pictures") ("u1.png") ([1] : Bytes)).put
        ("profile-pictures") ("u1.png") ([2] : Bytes)).countName ("profile-pictures") ("u1.png")
      = 1 :=
  claim_C4_one_object_per_user cfg0 ("u1") ("png") ("u1.png")
    [(("a.png"), ([] : Bytes)), (("b.png"), ([] : Bytes))] ObjectStore.empty
    (ObjectStore.empty.put ("profile-pictures") ("u1.png") ([1] : Bytes)) ([2] : Bytes)
    (by decide) (by decide)

/-- C5 counterexample: the accepted filename a/../b.png is passed to putObject
unchanged, but the returned canonical URL dot-resolves it, so the URL does not
embed the filename character for character — it does not even contain it. -/
theorem claim_C5_counterexample :
    (store_image cfg0 ObjectStore.empty true [] ("a/../b.png")).2
      = [BackingCall.putObject ("profile-pictures") ("a/../b.png") ([] : Bytes)]
    ∧ urlOf (store_image cfg0 ObjectStore.empty true [] ("a/../b.png")).1
      = some ("http://minio:9000/profile-pictures/b.png")
    ∧ ¬ List.IsInfix (("a/../b.png" : String).data)
        (("http://minio:9000/profile-pictures/b.png" : String).data) := by
  decide

/-- C5 (amended): case folding is used only for the validation check; for every
accepted filename the object name passed to putObject is exactly the name given
by the caller, and whenever bucket and filename form a plain path — every
slash-separated segment nonempty and no dot segments or reserved characters —
the returned URL embeds that exact filename after the bucket. -/
theorem claim_C5_exact_name (host bucket filename : String) (st : ObjectStore)
    (content : Bytes)
    (hh : ∀ c ∈ host.data, (c == '/') = false)
    (hacc : allowedExtensions.contains (extOf filename) = true)
    (hp : plainPath (bucket ++ "/" ++ filename) = true) :
    (store_image ⟨("http://" ++ host), bucket⟩ st true content filename).2
      = [BackingCall.putObject bucket filename content]
    ∧ urlOf (store_image ⟨("http://" ++ host), bucket⟩ st true content filename).1
      = some (("http://" ++ host) ++ "/" ++ (bucket ++ "/" ++ filename)) := by
  unfold store_image
  simp only [if_pos hacc]
  constructor
  · rfl
  · show some (storeImageUrl ("http://" ++ host) bucket filename) = _
    rw [show storeImageUrl ("http://" ++ host) bucket filename
        = urljoin ((("http://" ++ host)) ++ "/") (bucket ++ "/" ++ filename) from rfl]
    rw [urljoin_endpoint_slash host (bucket ++ "/" ++ filename) hh hp]

/-- C5 witness at the upper-case extension of the design document. -/
theorem claim_C5_witness :
    (store_image ⟨("http://" ++ "minio:9000"), ("profile-pictures")⟩ ObjectStore.empty true []
        ("abc.PNG")).2
      = [BackingCall.putObject ("profile-pictures") ("abc.PNG") ([] : Bytes)]
    ∧ urlOf (store_image ⟨("http://" ++ "minio:9000"), ("profile-pictures")⟩ ObjectStore.empty
        true [] ("abc.PNG")).1
      = some (("http://" ++ "minio:9000") ++ "/" ++ (("profile-pictures") ++ "/" ++ ("abc.PNG"))) :=
  claim_C5_exact_name ("minio:9000") ("profile-pictures") ("abc.PNG") ObjectStore.empty []
    (by decide) (by decide) (by decide)

/-- C6: with the configured endpoint and bucket of the design document,
store_image of any content under the given UUID filename returns exactly the
expected canonical URL. -/
theorem claim_C6_concrete_url (st : ObjectStore) (content : Bytes) :
    urlOf (store_image cfg0 st true content
        ("550e8400-e29b-41d4-a716-446655440000.png")).1
      = some ("http://minio:9000/profile-pictures/550e8400-e29b-41d4-a716-446655440000.png") := by
  rfl

/-- C7: for every configuration, store state, put outcome and content,
store_image of virus.exe raises exactly ValidationError with message
Invalid file extension: .exe, and performs no backing call at all. -/
theorem claim_C7_exe_rejected (cfg : Config) (st : ObjectStore) (putOk : Bool)
    (content : Bytes) :
    store_image cfg st putOk content ("virus.exe")
      = (Except.error (GatewayError.validationError ("Invalid file extension: .exe")), []) := by
  rfl

/-- C8: generate_presigned_url succeeds for every filename and store state —
no extension validation, and its only backing call is the presign itself, never
an existence check — and a call omitting the expiry uses the default of 3600
seconds. -/
theorem claim_C8_presign_unchecked (cfg : Config)
    (signer : String → String → Int → String) (st : ObjectStore) (filename : String)
    (expiry : Int) :
    (generate_presigned_url cfg signer st filename expiry).1
      = Except.ok (signer cfg.bucket filename expiry)
    ∧ (generate_presigned_url cfg signer st filename expiry).2
      = [BackingCall.presignGet cfg.bucket filename expiry]
    ∧ generate_presigned_url_omitted cfg signer st filename
      = generate_presigned_url cfg signer st filename 3600 :=
  ⟨rfl, rfl, rfl⟩

/-- C9: a failed putObject never yields a canonical URL — the URL of the result
is present iff the backing put succeeded and validation passed, and in
particular is absent whenever the put fails. -/
theorem claim_C9_no_url_on_failed_put (cfg : Config) (st : ObjectStore) (putOk : Bool)
    (content : Bytes) (f : String) :
    urlOf (store_image cfg st false content f).1 = none
    ∧ (urlOf (store_image cfg st putOk content f).1).isSome
      = (putOk && allowedExtensions.contains (extOf f)) := by
  by_cases hc : extOf f ∈ allowedExtensions
  · cases putOk <;> simp [store_image, hc, urlOf]
  · cases putOk <;> simp [store_image, hc, urlOf]

/-- C10: the filename .png with an empty stem passes validation, is stored as
the object literally named .png, and the returned URL ends in slash dot png. -/
theorem claim_C10_dot_png (st : ObjectStore) (content : Bytes) :
    (store_image cfg0 st true content (".png")).2
      = [BackingCall.putObject ("profile-pictures") (".png") content]
    ∧ urlOf (store_image cfg0 st true content (".png")).1
      = some ("http://minio:9000/profile-pictures/.png")
    ∧ List.IsSuffix (("/.png" : String).data)
        (("http://minio:9000/profile-pictures/.png" : String).data) := by
  refine ⟨rfl, rfl, by decide⟩

end UserManagement




